import Mathlib

/-!
# Error blinking (`_posts/error_handling/error_handling.h`)

A shallow embedding of the two functions of the header, `blink_pattern` and
`error_blink`, and the properties of their traces.

* The hardware abstraction layer (`digitalWrite`, `delay`, `Serial.print`,
  `Serial.println`) is modelled by a `World` that carries the pin latches, the
  time spent in `delay`, and the log of the calls made (oldest first).
* A `char pattern[]` argument is the list of characters stored in the array.
  As in C, the string it holds ends before the first NUL character (the end of
  the list stands for the terminator when no NUL is stored): `cstr` is that
  string and `strlen` its length.
* An `error_type` object is a machine integer. Its width and the width of `int`
  are fixed by the target, not by the header, so they are a parameter
  (`Target`). The argument of `error_blink` is converted to `error_type` at the
  call, and `Serial.println(error)` prints it through `println(int)`.
* `while (1)` cannot be a total Lean function, so the loop is run with fuel:
  one unit of fuel is one evaluation of the `for` condition
  `index < strlen(pattern)`.  A `Frame` records where the activation of
  `blink_pattern` stands when the fuel is spent, or that it has returned.
-/

namespace ErrorHandling

/-! ## Data model -/

/-- Logic level of a digital pin (`LOW` is 0 and `HIGH` is 1 on Arduino). -/
inductive Level where
  | LOW
  | HIGH
  deriving DecidableEq

/-- One call into the hardware abstraction layer. -/
inductive Event where
  /-- Call `digitalWrite(pin, level)`. -/
  | digitalWrite (pin : Nat) (level : Level)
  /-- Call `delay(ms)`. -/
  | delay (ms : Nat)
  /-- Call `Serial.print(text)`. -/
  | print (text : String)
  /-- Call `Serial.println(text)`. -/
  | println (text : String)
  /-- Call `Serial.println(n)` on a number. -/
  | printlnNum (n : Int)
  deriving DecidableEq

/-- The state the header acts on: pin latches, time spent waiting, and the log
of the calls made so far, oldest first. -/
structure World where
  pins : Nat → Level
  millis : Nat
  trace : List Event

/-- Constant `static const uint16_t BLINK_PERIOD = 500;`. -/
def BLINK_PERIOD : Nat := 500

/-- The integer widths of the target the header is compiled for. GCC gives an
enumeration without negative enumerators an unsigned underlying type:
`unsigned int`, or the smallest unsigned type that holds the enumerators under
`-fshort-enums`. -/
structure Target where
  /-- Width in bits of an `error_type` object. -/
  enumBits : Nat
  /-- Width in bits of `int`. -/
  intBits : Nat
  /-- The four enumerators 0..3 fit in an `error_type` object. -/
  enum_fits : 2 ≤ enumBits
  /-- An `error_type` object is no wider than an `int`. -/
  enum_le_int : enumBits ≤ intBits

/-- An 8-bit AVR board: `int` and the enumeration are 16 bits wide. -/
def Target.avr : Target := ⟨16, 16, by decide, by decide⟩

/-- A target with a 32-bit `int` and a 32-bit enumeration. -/
def Target.int32 : Target := ⟨32, 32, by decide, by decide⟩

/-- A target with a 32-bit `int` and short enumerations (one byte). -/
def Target.shortEnum : Target := ⟨8, 32, by decide, by decide⟩

/-- The numeric value held by an `error_type` object. A C enumeration is an integer
type, so a value outside the four enumerators can reach `error_blink`; on a
target `T` the values held are those of `0 .. 2 ^ T.enumBits - 1`. -/
abbrev error_type := Int

/-- Conversion of an integer to `error_type`, as applied to the argument of a call
of `error_blink`: reduction modulo `2 ^ enumBits`. -/
def to_error_type (T : Target) (n : Int) : error_type :=
  n % 2 ^ T.enumBits

/-- Conversion of an `error_type` value to `int`, the integral promotion by which
`Serial.println(error)` selects `println(int)`: the value read as a two's
complement number of `intBits` bits. -/
def to_int (T : Target) (e : error_type) : Int :=
  let r := e % 2 ^ T.intBits
  if r < 2 ^ (T.intBits - 1) then r else r - 2 ^ T.intBits

/-- Enumerator `MEM_LOAD_FAILED` (first, hence 0). -/
def MEM_LOAD_FAILED : error_type := 0
/-- Enumerator `CONNECTION_REFUSED`. -/
def CONNECTION_REFUSED : error_type := 1
/-- Enumerator `DEADBEEF`. -/
def DEADBEEF : error_type := 2
/-- Enumerator `ERROR_UNKNOWN`. -/
def ERROR_UNKNOWN : error_type := 3

/-! ## Hardware abstraction layer -/

/-- Effect of `digitalWrite(pin, val)`: latch the level and log the call. -/
def digitalWrite (pin : Nat) (val : Level) (w : World) : World :=
  { w with pins := fun p => if p = pin then val else w.pins p,
           trace := w.trace ++ [Event.digitalWrite pin val] }

/-- Effect of `delay(ms)`: the time passes and the call is logged. -/
def delay (ms : Nat) (w : World) : World :=
  { w with millis := w.millis + ms, trace := w.trace ++ [Event.delay ms] }

/-- Effect of `Serial.print(text)`. -/
def Serial_print (text : String) (w : World) : World :=
  { w with trace := w.trace ++ [Event.print text] }

/-- Effect of `Serial.println(text)`. -/
def Serial_println (text : String) (w : World) : World :=
  { w with trace := w.trace ++ [Event.println text] }

/-- Effect of `Serial.println(n)` on a number. -/
def Serial_printlnNum (n : Int) (w : World) : World :=
  { w with trace := w.trace ++ [Event.printlnNum n] }

/-! ## C strings -/

/-- The string terminator. -/
def NUL : Char := Char.ofNat 0

/-- The C string held by a character array: the characters before the first NUL. -/
def cstr (buf : List Char) : List Char :=
  buf.takeWhile (fun c => decide (c ≠ NUL))

/-- Library function `strlen`: the number of characters before the terminator. -/
def strlen (buf : List Char) : Nat :=
  (cstr buf).length

/-! ## `blink_pattern` -/

/-- An activation of `blink_pattern` after some fuel was spent. -/
structure Frame where
  /-- The loop variable `index` of the `for` statement. -/
  index : Nat
  /-- The world as the activation left it. -/
  world : World
  /-- Ghost field: the indices at which `pattern[index]` was evaluated, oldest first. -/
  reads : List Nat
  /-- Whether the `return` statement was executed. -/
  returned : Bool

/-- The body of `while (1)` in `blink_pattern`, from the evaluation of the `for`
condition on. When the condition fails the `for` statement ends and `while (1)`
starts it again with `index = 0`. The loop variable is a `size_t`; it never
exceeds `strlen(pattern)`, so it is a `Nat` here. -/
def blink_loop (pattern : List Char) : Nat → Nat → World → List Nat → Frame
  | 0, index, w, reads => ⟨index, w, reads, false⟩
  | fuel + 1, index, w, reads =>
    if index < strlen pattern then
      let c := pattern.getD index NUL
      if c = '0' then
        blink_loop pattern fuel (index + 1)
          (delay BLINK_PERIOD (digitalWrite 13 Level.LOW w)) (reads ++ [index])
      else if c = '1' then
        blink_loop pattern fuel (index + 1)
          (delay BLINK_PERIOD (digitalWrite 13 Level.HIGH w)) (reads ++ [index])
      else
        ⟨index, Serial_println "Invalid pattern string!" w, reads ++ [index], true⟩
    else
      blink_loop pattern fuel 0 w reads

/-- Function `blink_pattern(pattern)` run for `fuel` evaluations of the `for` condition. -/
def blink_pattern (pattern : List Char) (fuel : Nat) (w : World) : Frame :=
  blink_loop pattern fuel 0 w []

/-! ## `error_blink` -/

/-- Function `error_blink(error, message)` on target `T`. The parameter `error`
holds the argument converted to `error_type`. The fuel is handed to the call of
`blink_pattern`; nothing follows that call but `break` and the end of the
function, so `error_blink` has returned exactly when `blink_pattern` has. -/
def error_blink (T : Target) (error : Int) (message : String) (fuel : Nat) (w : World) :
    Frame :=
  let error : error_type := to_error_type T error
  let w := Serial_println message w
  if error = MEM_LOAD_FAILED then
    blink_pattern "1100".toList fuel w
  else if error = CONNECTION_REFUSED then
    blink_pattern "1010".toList fuel w
  else if error = DEADBEEF then
    blink_pattern "0001".toList fuel w
  else if error = ERROR_UNKNOWN then
    blink_pattern "00010101".toList fuel w
  else
    let w := Serial_print "Error not tagged! Code: " w
    let w := Serial_printlnNum (to_int T error) w
    blink_pattern "10100000".toList fuel w

/-! ## Vocabulary of the statements -/

/-- The level a pattern character stands for. -/
def levelOf (c : Char) : Level :=
  if c = '1' then Level.HIGH else Level.LOW

/-- The calls one pattern character makes: the pin write, then the wait. -/
def blinkStep (c : Char) : List Event :=
  [Event.digitalWrite 13 (levelOf c), Event.delay BLINK_PERIOD]

/-- The calls a sequence of pattern characters makes, in order. -/
def blinkEvents (cs : List Char) : List Event :=
  cs.flatMap blinkStep

/-- The world after the blink steps of a sequence of pattern characters. -/
def playChars (cs : List Char) (w : World) : World :=
  cs.foldl (fun w c => delay BLINK_PERIOD (digitalWrite 13 (levelOf c) w)) w

/-- The levels written to pins, in order: the pin events of a trace. -/
def pinWrites : List Event → List (Nat × Level)
  | [] => []
  | Event.digitalWrite pin level :: rest => (pin, level) :: pinWrites rest
  | _ :: rest => pinWrites rest

/-- Whether a pattern character is one of the two accepted ones. -/
def isBit (c : Char) : Prop := c = '0' ∨ c = '1'

instance (c : Char) : Decidable (isBit c) := by
  unfold isBit; infer_instance

/-- The calls an activation logged: what its frame added to the trace of the
world `w` it was started in. -/
def emitted (w : World) (f : Frame) : List Event :=
  f.world.trace.drop w.trace.length

/-- Boolean check of the pacing discipline: every pin write is to pin 13 and is
directly followed by a wait of `BLINK_PERIOD`, and there is no other wait. -/
def paced : List Event → Bool
  | [] => true
  | Event.digitalWrite pin _ :: Event.delay ms :: rest =>
    decide (pin = 13) && decide (ms = BLINK_PERIOD) && paced rest
  | Event.digitalWrite _ _ :: _ => false
  | Event.delay _ :: _ => false
  | Event.print _ :: rest => paced rest
  | Event.println _ :: rest => paced rest
  | Event.printlnNum _ :: rest => paced rest

/-- The pacing discipline of a trace: a pin write is to pin 13 and the next call is
`delay(BLINK_PERIOD)`; a wait lasts `BLINK_PERIOD` and the call before it is a
write to pin 13. -/
def Paced (t : List Event) : Prop :=
  (∀ (pre post : List Event) (pin : Nat) (level : Level),
      t = pre ++ Event.digitalWrite pin level :: post →
      pin = 13 ∧ ∃ post', post = Event.delay BLINK_PERIOD :: post')
  ∧ (∀ (pre post : List Event) (ms : Nat),
      t = pre ++ Event.delay ms :: post →
      ms = BLINK_PERIOD ∧ ∃ pre' level, pre = pre' ++ [Event.digitalWrite 13 level])

/-- A run blinks a pattern forever after a header of diagnostics: it never
returns, and for every `n`, once the fuel covers `n` passes the calls logged are the
header, then the blink steps of the pattern repeated `n` times, then blink steps
only. -/
def BlinksForever (run : Nat → Frame) (w : World) (header : List Event)
    (pat : List Char) : Prop :=
  ∀ (n fuel : Nat), n * (pat.length + 1) ≤ fuel →
    (run fuel).returned = false ∧
    ∃ more : List Char,
      emitted w (run fuel)
        = header ++ blinkEvents (List.replicate n pat).flatten ++ blinkEvents more

/-- The indices read during `n` whole passes over a pattern of length `len`. -/
def passReads (len : Nat) (n : Nat) : List Nat :=
  (List.replicate n (List.range' 0 len)).flatten

/-- A world right after reset: every pin low, no time spent, nothing logged. -/
def World.boot : World := ⟨fun _ => Level.LOW, 0, []⟩

/-! ## C strings: basic facts -/

theorem cstr_append_rest (buf : List Char) : ∃ r, buf = cstr buf ++ r :=
  ⟨buf.dropWhile (fun c => decide (c ≠ NUL)), (List.takeWhile_append_dropWhile _ buf).symm⟩

theorem ne_nul_of_mem_cstr {buf : List Char} {c : Char} (h : c ∈ cstr buf) : c ≠ NUL := by
  have := List.mem_takeWhile_imp h
  simpa using this

theorem cstr_eq_self {s : List Char} (h : ∀ c ∈ s, c ≠ NUL) : cstr s = s := by
  unfold cstr
  rw [List.takeWhile_eq_self_iff]
  intro c hc
  simpa using h c hc

theorem isBit_ne_nul {c : Char} (h : isBit c) : c ≠ NUL := by
  rcases h with h | h <;> subst h <;> decide

theorem cstr_of_bits {s : List Char} (h : ∀ c ∈ s, isBit c) : cstr s = s :=
  cstr_eq_self (fun c hc => isBit_ne_nul (h c hc))

theorem getD_of_cstr {buf pre post : List Char} {c : Char}
    (h : cstr buf = pre ++ c :: post) :
    pre.length < strlen buf ∧ buf.getD pre.length NUL = c := by
  constructor
  · unfold strlen; rw [h]; simp
  · obtain ⟨r, hr⟩ := cstr_append_rest buf
    rw [h] at hr
    rw [hr, List.getD_eq_getElem?_getD, List.append_assoc,
      List.getElem?_append_right (Nat.le_refl _)]
    simp

/-! ## `playChars` -/

theorem playChars_nil (w : World) : playChars [] w = w := rfl

theorem playChars_cons (c : Char) (cs : List Char) (w : World) :
    playChars (c :: cs) w
      = playChars cs (delay BLINK_PERIOD (digitalWrite 13 (levelOf c) w)) := rfl

theorem playChars_append (xs ys : List Char) (w : World) :
    playChars (xs ++ ys) w = playChars ys (playChars xs w) := by
  simp [playChars, List.foldl_append]

theorem playChars_trace (cs : List Char) (w : World) :
    (playChars cs w).trace = w.trace ++ blinkEvents cs := by
  induction cs generalizing w with
  | nil => simp [playChars, blinkEvents]
  | cons c cs ih =>
    rw [playChars_cons, ih]
    simp [blinkEvents, blinkStep, delay, digitalWrite]

theorem playChars_millis (cs : List Char) (w : World) :
    (playChars cs w).millis = w.millis + BLINK_PERIOD * cs.length := by
  induction cs generalizing w with
  | nil => simp [playChars]
  | cons c cs ih =>
    rw [playChars_cons, ih]
    simp [delay, digitalWrite]
    ring

theorem playChars_pins_other (cs : List Char) (w : World) (p : Nat) (hp : p ≠ 13) :
    (playChars cs w).pins p = w.pins p := by
  induction cs generalizing w with
  | nil => simp [playChars]
  | cons c cs ih =>
    rw [playChars_cons, ih]
    simp [delay, digitalWrite, hp]

theorem playChars_pin13 (cs : List Char) (w : World) :
    (playChars cs w).pins 13
      = match cs.getLast? with
        | none => w.pins 13
        | some c => levelOf c := by
  induction cs generalizing w with
  | nil => simp [playChars]
  | cons c cs ih =>
    rw [playChars_cons, ih]
    cases cs with
    | nil => simp [delay, digitalWrite]
    | cons d ds =>
      have hx : (d :: ds).getLast? = some ((d :: ds).getLast (by simp)) :=
        List.getLast?_eq_getLast _ _
      simp only [List.getLast?_cons_cons, hx]

/-! ## One step of the loop -/

theorem blink_loop_bit {pattern pre post : List Char} {c : Char}
    (h : cstr pattern = pre ++ c :: post) (hc : isBit c)
    (fuel : Nat) (w : World) (rd : List Nat) :
    blink_loop pattern (fuel + 1) pre.length w rd
      = blink_loop pattern fuel (pre.length + 1)
          (delay BLINK_PERIOD (digitalWrite 13 (levelOf c) w)) (rd ++ [pre.length]) := by
  obtain ⟨hlt, hget⟩ := getD_of_cstr h
  rw [blink_loop]
  simp only [hlt, if_true, hget]
  rcases hc with hc | hc <;> subst hc <;> simp [levelOf]

theorem blink_loop_bad {pattern pre post : List Char} {c : Char}
    (h : cstr pattern = pre ++ c :: post) (hc : ¬ isBit c)
    (fuel : Nat) (w : World) (rd : List Nat) :
    blink_loop pattern (fuel + 1) pre.length w rd
      = ⟨pre.length, Serial_println "Invalid pattern string!" w, rd ++ [pre.length], true⟩ := by
  obtain ⟨hlt, hget⟩ := getD_of_cstr h
  have h0 : c ≠ '0' := fun e => hc (Or.inl e)
  have h1 : c ≠ '1' := fun e => hc (Or.inr e)
  rw [blink_loop]
  simp only [hlt, if_true, hget, h0, h1, if_false]

theorem blink_loop_wrap (pattern : List Char) (fuel : Nat) (w : World) (rd : List Nat) :
    blink_loop pattern (fuel + 1) (strlen pattern) w rd = blink_loop pattern fuel 0 w rd := by
  rw [blink_loop]
  simp

/-! ## Runs of accepted characters -/

theorem blink_loop_segment (pattern : List Char) (seg : List Char) :
    ∀ (pre post : List Char), cstr pattern = pre ++ seg ++ post → (∀ c ∈ seg, isBit c) →
    ∀ (fuel : Nat) (w : World) (rd : List Nat),
    blink_loop pattern (seg.length + fuel) pre.length w rd
      = blink_loop pattern fuel (pre.length + seg.length) (playChars seg w)
          (rd ++ List.range' pre.length seg.length) := by
  induction seg with
  | nil => intro pre post _ _ fuel w rd; simp [playChars]
  | cons c t ih =>
    intro pre post h hb fuel w rd
    have h1 : cstr pattern = pre ++ c :: (t ++ post) := by simpa using h
    have h2 : cstr pattern = (pre ++ [c]) ++ t ++ post := by simpa using h
    have hstep := blink_loop_bit h1 (hb c (by simp)) (t.length + fuel) w rd
    have hrec := ih (pre ++ [c]) post h2 (fun d hd => hb d (by simp [hd])) fuel
      (delay BLINK_PERIOD (digitalWrite 13 (levelOf c) w)) (rd ++ [pre.length])
    have e1 : (c :: t).length + fuel = (t.length + fuel) + 1 := by simp; omega
    rw [e1, hstep]
    simp only [List.length_append, List.length_singleton] at hrec
    rw [hrec, playChars_cons]
    simp [List.range'_succ, Nat.add_assoc, Nat.add_comm 1]

theorem blink_loop_pass {pattern : List Char} (hb : ∀ c ∈ cstr pattern, isBit c)
    (fuel : Nat) (w : World) (rd : List Nat) :
    blink_loop pattern ((strlen pattern + 1) + fuel) 0 w rd
      = blink_loop pattern fuel 0 (playChars (cstr pattern) w)
          (rd ++ List.range' 0 (strlen pattern)) := by
  have h := blink_loop_segment pattern (cstr pattern) [] [] (by simp) hb
    (fuel + 1) w rd
  have e : strlen pattern + 1 + fuel = (cstr pattern).length + (fuel + 1) := by
    unfold strlen; omega
  simp only [List.length_nil, Nat.zero_add] at h
  rw [e, h]
  exact blink_loop_wrap pattern fuel _ _

theorem blink_loop_passes {pattern : List Char} (hb : ∀ c ∈ cstr pattern, isBit c)
    (n fuel : Nat) (w : World) (rd : List Nat) :
    blink_loop pattern (n * (strlen pattern + 1) + fuel) 0 w rd
      = blink_loop pattern fuel 0 (playChars (List.replicate n (cstr pattern)).flatten w)
          (rd ++ passReads (strlen pattern) n) := by
  induction n generalizing w rd with
  | zero => simp [playChars, passReads]
  | succ n ih =>
    have e : (n + 1) * (strlen pattern + 1) + fuel
        = (strlen pattern + 1) + (n * (strlen pattern + 1) + fuel) := by ring
    rw [e, blink_loop_pass hb, ih]
    simp [List.replicate_succ, playChars_append, passReads]

theorem blink_loop_closed {pattern : List Char} (hb : ∀ c ∈ cstr pattern, isBit c)
    (fuel : Nat) (w : World) (rd : List Nat) :
    blink_loop pattern fuel 0 w rd
      = ⟨fuel % (strlen pattern + 1),
         playChars ((List.replicate (fuel / (strlen pattern + 1)) (cstr pattern)).flatten
           ++ (cstr pattern).take (fuel % (strlen pattern + 1))) w,
         rd ++ passReads (strlen pattern) (fuel / (strlen pattern + 1))
            ++ List.range' 0 (fuel % (strlen pattern + 1)),
         false⟩ := by
  set L := strlen pattern with hL
  have hr : fuel % (L + 1) ≤ L := Nat.lt_succ_iff.mp (Nat.mod_lt _ (Nat.succ_pos _))
  have e : fuel = (fuel / (L + 1)) * (L + 1) + ((cstr pattern).take (fuel % (L + 1))).length + 0 := by
    have := Nat.div_add_mod fuel (L + 1)
    have hl : ((cstr pattern).take (fuel % (L + 1))).length = fuel % (L + 1) := by
      rw [List.length_take]; unfold strlen at hL; omega
    rw [hl, Nat.mul_comm]; omega
  have hseg := blink_loop_segment pattern ((cstr pattern).take (fuel % (L + 1)))
    [] ((cstr pattern).drop (fuel % (L + 1))) (by simp)
    (fun c hc => hb c (List.mem_of_mem_take hc)) 0
  have hl : ((cstr pattern).take (fuel % (L + 1))).length = fuel % (L + 1) := by
    rw [List.length_take]; unfold strlen at hL; omega
  simp only [List.length_nil, Nat.zero_add] at hseg
  conv_lhs => rw [e, Nat.add_assoc, blink_loop_passes hb]
  rw [hseg]
  simp only [blink_loop, List.length_nil, Nat.zero_add, hl, playChars_append]

/-! ## Traces -/

theorem emitted_of_trace {w : World} {f : Frame} {t : List Event}
    (h : f.world.trace = w.trace ++ t) : emitted w f = t := by
  simp [emitted, h]

theorem blinkEvents_append (xs ys : List Char) :
    blinkEvents (xs ++ ys) = blinkEvents xs ++ blinkEvents ys := by
  simp [blinkEvents]

theorem blinkEvents_cons (c : Char) (cs : List Char) :
    blinkEvents (c :: cs)
      = Event.digitalWrite 13 (levelOf c) :: Event.delay BLINK_PERIOD :: blinkEvents cs := by
  simp [blinkEvents, blinkStep]

theorem pinWrites_blinkEvents (cs : List Char) :
    pinWrites (blinkEvents cs) = cs.map (fun c => (13, levelOf c)) := by
  induction cs with
  | nil => simp [blinkEvents, pinWrites]
  | cons c cs ih => rw [blinkEvents_cons]; simp [pinWrites, ih]

theorem pinWrites_append (xs ys : List Event) :
    pinWrites (xs ++ ys) = pinWrites xs ++ pinWrites ys := by
  induction xs with
  | nil => simp [pinWrites]
  | cons e xs ih => cases e <;> simp [pinWrites, ih]

/-! ## Patterns with a rejected character -/

theorem blink_loop_reject {pattern v rest : List Char} {c : Char}
    (h : cstr pattern = v ++ c :: rest) (hv : ∀ d ∈ v, isBit d) (hc : ¬ isBit c)
    (fuel : Nat) (w : World) (rd : List Nat) :
    blink_loop pattern (v.length + (fuel + 1)) 0 w rd
      = ⟨v.length, Serial_println "Invalid pattern string!" (playChars v w),
         rd ++ List.range' 0 (v.length + 1), true⟩ := by
  have hseg := blink_loop_segment pattern v [] (c :: rest) (by simpa using h) hv
    (fuel + 1) w rd
  simp only [List.length_nil, Nat.zero_add] at hseg
  rw [hseg, blink_loop_bad h hc]
  simp [List.range'_concat]

theorem blink_loop_before_reject {pattern v rest : List Char} {c : Char}
    (h : cstr pattern = v ++ c :: rest) (hv : ∀ d ∈ v, isBit d)
    (fuel : Nat) (hf : fuel ≤ v.length) (w : World) (rd : List Nat) :
    blink_loop pattern fuel 0 w rd
      = ⟨fuel, playChars (v.take fuel) w, rd ++ List.range' 0 fuel, false⟩ := by
  have hl : (v.take fuel).length = fuel := by rw [List.length_take]; omega
  have hseg := blink_loop_segment pattern (v.take fuel) []
    (v.drop fuel ++ c :: rest)
    (by rw [h, List.nil_append, ← List.append_assoc, List.take_append_drop]) (fun d hd => hv d (List.mem_of_mem_take hd)) 0 w rd
  simp only [List.length_nil, Nat.zero_add, hl, Nat.add_zero] at hseg
  rw [hseg, blink_loop]

/-- A string with a rejected character splits at the first one. -/
theorem split_at_first_reject (s : List Char) (h : ∃ c ∈ s, ¬ isBit c) :
    ∃ v c rest, s = v ++ c :: rest ∧ (∀ d ∈ v, isBit d) ∧ ¬ isBit c := by
  induction s with
  | nil => simp at h
  | cons a s ih =>
    by_cases ha : isBit a
    · have h' : ∃ c ∈ s, ¬ isBit c := by
        obtain ⟨c, hc, hn⟩ := h
        rcases List.mem_cons.mp hc with e | e
        · exact absurd (e ▸ ha) hn
        · exact ⟨c, e, hn⟩
      obtain ⟨v, c, rest, e, hv, hc⟩ := ih h'
      refine ⟨a :: v, c, rest, by simp [e], ?_, hc⟩
      intro d hd
      rcases List.mem_cons.mp hd with e | e
      · exact e ▸ ha
      · exact hv d e
    · exact ⟨[], a, s, rfl, by simp, ha⟩

/-! ## The shape of every trace -/

theorem blink_loop_shape (pattern : List Char) (fuel : Nat) :
    ∀ (index : Nat) (w : World) (rd : List Nat),
    ∃ cs : List Char,
      (blink_loop pattern fuel index w rd).world = playChars cs w
      ∨ (blink_loop pattern fuel index w rd).world
          = Serial_println "Invalid pattern string!" (playChars cs w) := by
  induction fuel with
  | zero => intro index w rd; exact ⟨[], Or.inl rfl⟩
  | succ fuel ih =>
    intro index w rd
    rw [blink_loop]
    by_cases hlt : index < strlen pattern
    · simp only [hlt, if_true]
      by_cases h0 : pattern.getD index NUL = '0'
      · simp only [h0, if_true]
        obtain ⟨cs, h⟩ := ih (index + 1)
          (delay BLINK_PERIOD (digitalWrite 13 Level.LOW w)) (rd ++ [index])
        refine ⟨'0' :: cs, ?_⟩
        simpa [playChars_cons, levelOf] using h
      · by_cases h1 : pattern.getD index NUL = '1'
        · simp only [h1, if_true]
          obtain ⟨cs, h⟩ := ih (index + 1)
            (delay BLINK_PERIOD (digitalWrite 13 Level.HIGH w)) (rd ++ [index])
          refine ⟨'1' :: cs, ?_⟩
          simpa [playChars_cons, levelOf] using h
        · simp only [h0, h1, if_false]
          exact ⟨[], Or.inr rfl⟩
    · simp only [hlt, if_false]
      exact ih 0 w rd

theorem paced_blinkEvents_append (cs : List Char) (t : List Event) :
    paced (blinkEvents cs ++ t) = paced t := by
  induction cs with
  | nil => simp [blinkEvents]
  | cons c cs ih => rw [blinkEvents_cons]; simp [paced, ih]

theorem Paced_of_paced : ∀ (t : List Event), paced t = true → Paced t := by
  intro t
  induction t using paced.induct with
  | case1 =>
    intro _
    constructor
    · intro pre post pin level h; simp at h
    · intro pre post ms h; simp at h
  | case2 pin lvl ms rest ih =>
    intro h
    simp only [paced, Bool.and_eq_true, decide_eq_true_eq] at h
    obtain ⟨⟨hp, hm⟩, hr⟩ := h
    obtain ⟨ih1, ih2⟩ := ih hr
    subst hp; subst hm
    constructor
    · intro pre post pin level e
      match pre, e with
      | [], e =>
        simp only [List.nil_append, List.cons.injEq, Event.digitalWrite.injEq] at e
        exact ⟨e.1.1.symm, rest, e.2.symm⟩
      | [a], e => simp at e
      | a :: b :: pre', e =>
        simp only [List.cons_append, List.cons.injEq] at e
        exact ih1 pre' post pin level e.2.2
    · intro pre post ms e
      match pre, e with
      | [], e => simp at e
      | [a], e =>
        simp only [List.cons_append, List.nil_append, List.cons.injEq, Event.delay.injEq] at e
        refine ⟨e.2.1.symm, [], lvl, ?_⟩
        simp [e.1]
      | a :: b :: pre', e =>
        simp only [List.cons_append, List.cons.injEq] at e
        obtain ⟨hms, pre2, level, hpre⟩ := ih2 pre' post ms e.2.2
        exact ⟨hms, a :: b :: pre2, level, by simp [hpre]⟩
  | case3 pin lvl t hno =>
    intro h
    simp [paced] at h
  | case4 ms t =>
    intro h
    simp [paced] at h
  | case5 s rest ih =>
    intro h
    simp only [paced] at h
    obtain ⟨ih1, ih2⟩ := ih h
    constructor
    · intro pre post pin level e
      match pre, e with
      | [], e => simp at e
      | a :: pre', e =>
        simp only [List.cons_append, List.cons.injEq] at e
        exact ih1 pre' post pin level e.2
    · intro pre post ms e
      match pre, e with
      | [], e => simp at e
      | a :: pre', e =>
        simp only [List.cons_append, List.cons.injEq] at e
        obtain ⟨hms, pre2, level, hpre⟩ := ih2 pre' post ms e.2
        exact ⟨hms, a :: pre2, level, by simp [hpre]⟩
  | case6 s rest ih =>
    intro h
    simp only [paced] at h
    obtain ⟨ih1, ih2⟩ := ih h
    constructor
    · intro pre post pin level e
      match pre, e with
      | [], e => simp at e
      | a :: pre', e =>
        simp only [List.cons_append, List.cons.injEq] at e
        exact ih1 pre' post pin level e.2
    · intro pre post ms e
      match pre, e with
      | [], e => simp at e
      | a :: pre', e =>
        simp only [List.cons_append, List.cons.injEq] at e
        obtain ⟨hms, pre2, level, hpre⟩ := ih2 pre' post ms e.2
        exact ⟨hms, a :: pre2, level, by simp [hpre]⟩
  | case7 s rest ih =>
    intro h
    simp only [paced] at h
    obtain ⟨ih1, ih2⟩ := ih h
    constructor
    · intro pre post pin level e
      match pre, e with
      | [], e => simp at e
      | a :: pre', e =>
        simp only [List.cons_append, List.cons.injEq] at e
        exact ih1 pre' post pin level e.2
    · intro pre post ms e
      match pre, e with
      | [], e => simp at e
      | a :: pre', e =>
        simp only [List.cons_append, List.cons.injEq] at e
        obtain ⟨hms, pre2, level, hpre⟩ := ih2 pre' post ms e.2
        exact ⟨hms, a :: pre2, level, by simp [hpre]⟩

/-! ## Cyclic indexing -/

theorem cyc_getElem? (s : List Char) (q : Nat) :
    ∀ (r i : Nat), r ≤ s.length → i < q * s.length + r →
    ((List.replicate q s).flatten ++ s.take r)[i]? = s[i % s.length]? := by
  induction q with
  | zero =>
    intro r i hr hi
    have hi' : i < r := by simpa using hi
    simp only [List.replicate_zero, List.flatten_nil, List.nil_append]
    rw [List.getElem?_take_of_lt hi', Nat.mod_eq_of_lt (by omega)]
  | succ q ih =>
    intro r i hr hi
    rw [List.replicate_succ, List.flatten_cons, List.append_assoc]
    by_cases hlt : i < s.length
    · rw [List.getElem?_append_left hlt, Nat.mod_eq_of_lt hlt]
    · have hge : s.length ≤ i := Nat.le_of_not_lt hlt
      rw [List.getElem?_append_right hge, ih r (i - s.length) hr
        (by rw [Nat.succ_mul] at hi; omega), Nat.mod_eq_sub_mod hge]

theorem consumed_ge (len fuel i : Nat) (hlen : 0 < len) (hf : 2 * (i + 1) ≤ fuel) :
    i < fuel / (len + 1) * len + fuel % (len + 1) := by
  have h1 := Nat.div_add_mod fuel (len + 1)
  have h2 : (len + 1) * (fuel / (len + 1)) = fuel / (len + 1) * len + fuel / (len + 1) := by
    ring
  have h3 : fuel / (len + 1) ≤ fuel / (len + 1) * len := Nat.le_mul_of_pos_right _ hlen
  omega

/-! ## Runs of `blink_pattern` and `error_blink` -/

theorem blink_pattern_bits {pattern : List Char} (hb : ∀ c ∈ cstr pattern, isBit c)
    (fuel : Nat) (w : World) :
    blink_pattern pattern fuel w
      = ⟨fuel % (strlen pattern + 1),
         playChars ((List.replicate (fuel / (strlen pattern + 1)) (cstr pattern)).flatten
           ++ (cstr pattern).take (fuel % (strlen pattern + 1))) w,
         passReads (strlen pattern) (fuel / (strlen pattern + 1))
            ++ List.range' 0 (fuel % (strlen pattern + 1)),
         false⟩ := by
  unfold blink_pattern
  rw [blink_loop_closed hb]
  simp

theorem blink_pattern_reject {pattern v rest : List Char} {c : Char}
    (h : cstr pattern = v ++ c :: rest) (hv : ∀ d ∈ v, isBit d) (hc : ¬ isBit c)
    (fuel : Nat) (hf : v.length + 1 ≤ fuel) (w : World) :
    blink_pattern pattern fuel w
      = ⟨v.length, Serial_println "Invalid pattern string!" (playChars v w),
         List.range' 0 (v.length + 1), true⟩ := by
  obtain ⟨k, rfl⟩ : ∃ k, fuel = v.length + (k + 1) := ⟨fuel - (v.length + 1), by omega⟩
  unfold blink_pattern
  rw [blink_loop_reject h hv hc]
  simp

theorem blinksForever_of_bits {pattern : List Char} (hb : ∀ c ∈ cstr pattern, isBit c)
    (w0 w : World) (header : List Event) (hw : w.trace = w0.trace ++ header) :
    BlinksForever (fun fuel => blink_pattern pattern fuel w) w0 header (cstr pattern) := by
  intro n fuel hle
  have hq : n ≤ fuel / (strlen pattern + 1) := by
    rw [Nat.le_div_iff_mul_le (Nat.succ_pos _)]
    exact hle
  simp only [blink_pattern_bits hb, true_and]
  obtain ⟨d, hd⟩ : ∃ d, fuel / (strlen pattern + 1) = n + d := ⟨_, (Nat.add_sub_cancel' hq).symm⟩
  refine ⟨(List.replicate d (cstr pattern)).flatten
      ++ (cstr pattern).take (fuel % (strlen pattern + 1)), ?_⟩
  apply emitted_of_trace
  rw [playChars_trace, hw, hd, List.replicate_add, List.flatten_append]
  simp [blinkEvents_append, List.append_assoc]

theorem to_error_type_small (T : Target) (k : Int) (h0 : 0 ≤ k) (h3 : k ≤ 3) :
    to_error_type T k = k := by
  have hp : (2 : Int) ^ 2 ≤ 2 ^ T.enumBits :=
    pow_le_pow_right₀ (by norm_num) T.enum_fits
  unfold to_error_type
  apply Int.emod_eq_of_lt h0
  have : (2 : Int) ^ 2 = 4 := by norm_num
  omega

theorem to_error_type_range (T : Target) (n : Int) :
    0 ≤ to_error_type T n ∧ to_error_type T n < 2 ^ T.intBits := by
  have hpos : (0 : Int) < 2 ^ T.enumBits := by positivity
  have hle : (2 : Int) ^ T.enumBits ≤ 2 ^ T.intBits :=
    pow_le_pow_right₀ (by norm_num) T.enum_le_int
  unfold to_error_type
  exact ⟨Int.emod_nonneg _ (ne_of_gt hpos), lt_of_lt_of_le (Int.emod_lt_of_pos _ hpos) hle⟩

theorem to_int_low (T : Target) (e : error_type) (h0 : 0 ≤ e)
    (h : e < 2 ^ (T.intBits - 1)) : to_int T e = e := by
  have hle : (2 : Int) ^ (T.intBits - 1) ≤ 2 ^ T.intBits :=
    pow_le_pow_right₀ (by norm_num) (Nat.sub_le _ _)
  have hr : e % 2 ^ T.intBits = e := Int.emod_eq_of_lt h0 (lt_of_lt_of_le h hle)
  unfold to_int
  simp only [hr, if_pos h]

theorem to_int_high (T : Target) (e : error_type) (hlt : e < 2 ^ T.intBits)
    (h : 2 ^ (T.intBits - 1) ≤ e) : to_int T e = e - 2 ^ T.intBits := by
  have h0 : (0 : Int) ≤ e := le_trans (by positivity) h
  have hr : e % 2 ^ T.intBits = e := Int.emod_eq_of_lt h0 hlt
  unfold to_int
  simp only [hr, if_neg (not_lt.mpr h)]

theorem error_blink_named_runs (T : Target) (pat : List Char) (error : Int) (message : String)
    (w : World) (h : ∀ fuel, error_blink T error message fuel w
      = blink_pattern pat fuel (Serial_println message w))
    (hc : cstr pat = pat) (hb : ∀ c ∈ pat, isBit c) :
    BlinksForever (fun fuel => error_blink T error message fuel w) w
      [Event.println message] pat := by
  have hb' : ∀ c ∈ cstr pat, isBit c := by rw [hc]; exact hb
  have := blinksForever_of_bits hb' w (Serial_println message w) [Event.println message]
    (by simp [Serial_println])
  rw [hc] at this
  simpa [h] using this

theorem error_blink_of_enumerator (T : Target) (k : Int) (h0 : 0 ≤ k) (h3 : k ≤ 3)
    (message : String) (fuel : Nat) (w : World) :
    error_blink T k message fuel w
      = if k = MEM_LOAD_FAILED then
          blink_pattern "1100".toList fuel (Serial_println message w)
        else if k = CONNECTION_REFUSED then
          blink_pattern "1010".toList fuel (Serial_println message w)
        else if k = DEADBEEF then
          blink_pattern "0001".toList fuel (Serial_println message w)
        else
          blink_pattern "00010101".toList fuel (Serial_println message w) := by
  have h3' : k = MEM_LOAD_FAILED ∨ k = CONNECTION_REFUSED ∨ k = DEADBEEF ∨ k = ERROR_UNKNOWN := by
    unfold MEM_LOAD_FAILED CONNECTION_REFUSED DEADBEEF ERROR_UNKNOWN
    have hk : (k : Int) = 0 ∨ (k : Int) = 1 ∨ (k : Int) = 2 ∨ (k : Int) = 3 := by omega
    exact hk
  unfold error_blink
  dsimp only
  rw [to_error_type_small T k h0 h3]
  rcases h3' with h | h | h | h <;> subst h <;> rfl

theorem blink_pattern_trace_shape (pattern : List Char) (fuel : Nat) (w : World) :
    ∃ (cs : List Char) (tail : List Event),
      (blink_pattern pattern fuel w).world.trace = w.trace ++ (blinkEvents cs ++ tail)
      ∧ (tail = [] ∨ tail = [Event.println "Invalid pattern string!"]) := by
  obtain ⟨cs, h | h⟩ := blink_loop_shape pattern fuel 0 w []
  · exact ⟨cs, [], by unfold blink_pattern; rw [h, playChars_trace]; simp, Or.inl rfl⟩
  · refine ⟨cs, [Event.println "Invalid pattern string!"], ?_, Or.inr rfl⟩
    unfold blink_pattern
    rw [h]
    simp [Serial_println, playChars_trace]

theorem error_blink_dispatch (T : Target) (error : Int) (message : String) (fuel : Nat)
    (w : World) :
    ∃ (pat : List Char) (hdr : List Event) (w' : World),
      error_blink T error message fuel w = blink_pattern pat fuel w'
      ∧ w'.trace = w.trace ++ hdr
      ∧ (hdr = [Event.println message]
          ∨ hdr = [Event.println message, Event.print "Error not tagged! Code: ",
                   Event.printlnNum (to_int T (to_error_type T error))])
      ∧ (∀ c ∈ cstr pat, isBit c) := by
  unfold error_blink
  by_cases h0 : to_error_type T error = MEM_LOAD_FAILED
  · exact ⟨"1100".toList, _, Serial_println message w, by dsimp only; rw [if_pos h0],
      by simp [Serial_println], Or.inl rfl, by decide⟩
  by_cases h1 : to_error_type T error = CONNECTION_REFUSED
  · exact ⟨"1010".toList, _, Serial_println message w, by dsimp only; rw [if_neg h0, if_pos h1],
      by simp [Serial_println], Or.inl rfl, by decide⟩
  by_cases h2 : to_error_type T error = DEADBEEF
  · exact ⟨"0001".toList, _, Serial_println message w,
      by dsimp only; rw [if_neg h0, if_neg h1, if_pos h2],
      by simp [Serial_println], Or.inl rfl, by decide⟩
  by_cases h3 : to_error_type T error = ERROR_UNKNOWN
  · exact ⟨"00010101".toList, _, Serial_println message w,
      by dsimp only; rw [if_neg h0, if_neg h1, if_neg h2, if_pos h3],
      by simp [Serial_println], Or.inl rfl, by decide⟩
  exact ⟨"10100000".toList, _,
    Serial_printlnNum (to_int T (to_error_type T error))
      (Serial_print "Error not tagged! Code: " (Serial_println message w)),
    by dsimp only; rw [if_neg h0, if_neg h1, if_neg h2, if_neg h3],
    by simp [Serial_println, Serial_print, Serial_printlnNum], Or.inr rfl, by decide⟩

/-! ## Claims -/

/-- Claim C8: on an empty pattern (an array whose string has length 0)
`blink_pattern` loops forever with nothing observable. Whatever the fuel, the loop
variable is 0, the world is the one it was started in (no pin write, no wait, no
diagnostic: nothing is logged), no `pattern[index]` was evaluated, and the
function has not returned. -/
theorem blink_pattern_empty (pattern : List Char) (w : World) (fuel : Nat)
    (hempty : strlen pattern = 0) :
    (blink_pattern pattern fuel w).index = 0
    ∧ (blink_pattern pattern fuel w).world = w
    ∧ emitted w (blink_pattern pattern fuel w) = []
    ∧ (blink_pattern pattern fuel w).reads = []
    ∧ (blink_pattern pattern fuel w).returned = false := by
  have hs : cstr pattern = [] := List.length_eq_zero.mp hempty
  have hb : ∀ c ∈ cstr pattern, isBit c := by simp [hs]
  rw [blink_pattern_bits hb]
  simp [hempty, hs, playChars, passReads, emitted, Nat.mod_one]

theorem blink_pattern_empty_witness :
    strlen [] = 0
    ∧ (blink_pattern [] 1000 World.boot).index = 0
    ∧ (blink_pattern [] 1000 World.boot).world = World.boot
    ∧ emitted World.boot (blink_pattern [] 1000 World.boot) = []
    ∧ (blink_pattern [] 1000 World.boot).reads = []
    ∧ (blink_pattern [] 1000 World.boot).returned = false :=
  ⟨by decide, blink_pattern_empty [] World.boot 1000 (by decide)⟩

/-- Claim C5: when the pattern (the string held by the array) is `v ++ [c] ++ rest`
with every character of `v` accepted and `c` rejected, then from fuel
`v.length + 1` on the run is complete: the function has returned, the calls it
logged are the blink steps of `v` in order followed by one
`Serial.println("Invalid pattern string!")`, and the indices read are
`0, ..., v.length`, so nothing of `rest` was looked at. Before that
(fuel at most `v.length`) it has not returned and has logged the blink steps of the
first `fuel` characters of `v`. Neither `c` nor `rest` occurs in the result. -/
theorem blink_pattern_invalid_trace (pattern v rest : List Char) (c : Char) (w : World)
    (hform : cstr pattern = v ++ c :: rest) (hv : ∀ d ∈ v, isBit d) (hc : ¬ isBit c) :
    (∀ fuel, v.length + 1 ≤ fuel →
      (blink_pattern pattern fuel w).returned = true
      ∧ emitted w (blink_pattern pattern fuel w)
          = blinkEvents v ++ [Event.println "Invalid pattern string!"]
      ∧ (blink_pattern pattern fuel w).reads = List.range' 0 (v.length + 1))
    ∧ (∀ fuel, fuel ≤ v.length →
      (blink_pattern pattern fuel w).returned = false
      ∧ emitted w (blink_pattern pattern fuel w) = blinkEvents (v.take fuel)) := by
  constructor
  · intro fuel hf
    rw [blink_pattern_reject hform hv hc fuel hf]
    refine ⟨rfl, ?_, rfl⟩
    apply emitted_of_trace
    simp [Serial_println, playChars_trace]
  · intro fuel hf
    unfold blink_pattern
    rw [blink_loop_before_reject hform hv fuel hf]
    refine ⟨rfl, ?_⟩
    apply emitted_of_trace
    simp [playChars_trace]

theorem blink_pattern_invalid_trace_witness :
    cstr "102".toList = ['1', '0'] ++ '2' :: []
    ∧ (∀ d ∈ ['1', '0'], isBit d)
    ∧ ¬ isBit '2'
    ∧ (blink_pattern "102".toList 3 World.boot).returned = true
    ∧ emitted World.boot (blink_pattern "102".toList 3 World.boot)
        = [Event.digitalWrite 13 Level.HIGH, Event.delay 500,
           Event.digitalWrite 13 Level.LOW, Event.delay 500,
           Event.println "Invalid pattern string!"]
    ∧ (blink_pattern "102".toList 3 World.boot).reads = [0, 1, 2] :=
  ⟨by decide, by decide, by decide,
   (blink_pattern_invalid_trace "102".toList ['1', '0'] [] '2' World.boot
    (by decide) (by decide) (by decide)).1 3 (by decide)⟩

/-- Claim C10: when `blink_pattern` returns on a malformed pattern
`v ++ [c] ++ rest` (`v` accepted, `c` rejected) it leaves the pin as the last step
set it: pin 13 holds the level of the last character of `v`, or the level it had
on entry when `v` is empty; every other pin is untouched; the time spent waiting is
`BLINK_PERIOD * v.length`, and the loop variable is `v.length`, the index of the
first rejected character. -/
theorem blink_pattern_invalid_frame (pattern v rest : List Char) (c : Char) (w : World)
    (fuel : Nat)
    (hform : cstr pattern = v ++ c :: rest) (hv : ∀ d ∈ v, isBit d) (hc : ¬ isBit c)
    (hfuel : v.length + 1 ≤ fuel) :
    (blink_pattern pattern fuel w).returned = true
    ∧ (blink_pattern pattern fuel w).index = v.length
    ∧ (blink_pattern pattern fuel w).world.pins 13
        = (match v.getLast? with
           | none => w.pins 13
           | some d => if d = '1' then Level.HIGH else Level.LOW)
    ∧ (∀ p, p ≠ 13 → (blink_pattern pattern fuel w).world.pins p = w.pins p)
    ∧ (blink_pattern pattern fuel w).world.millis = w.millis + 500 * v.length := by
  rw [blink_pattern_reject hform hv hc fuel hfuel]
  refine ⟨rfl, rfl, ?_, ?_, ?_⟩
  · simp only [Serial_println]
    rw [playChars_pin13]
    cases v.getLast? <;> simp [levelOf]
  · intro p hp
    simp only [Serial_println]
    exact playChars_pins_other v w p hp
  · simp only [Serial_println]
    rw [playChars_millis]
    rfl

theorem blink_pattern_invalid_frame_witness :
    (cstr "12".toList = ['1'] ++ '2' :: [] ∧ (∀ d ∈ ['1'], isBit d) ∧ ¬ isBit '2'
      ∧ ['1'].length + 1 ≤ 2)
    ∧ ((blink_pattern "12".toList 2 World.boot).returned = true
      ∧ (blink_pattern "12".toList 2 World.boot).index = 1
      ∧ (blink_pattern "12".toList 2 World.boot).world.pins 13 = Level.HIGH
      ∧ (∀ p, p ≠ 13 → (blink_pattern "12".toList 2 World.boot).world.pins p
          = World.boot.pins p)
      ∧ (blink_pattern "12".toList 2 World.boot).world.millis = 0 + 500 * 1)
    ∧ ((blink_pattern "102".toList 3 World.boot).world.pins 13 = Level.LOW)
    ∧ ((blink_pattern "2".toList 1 (digitalWrite 13 Level.HIGH World.boot)).world.pins 13
        = Level.HIGH) :=
  ⟨⟨by decide, by decide, by decide, by decide⟩,
   blink_pattern_invalid_frame "12".toList ['1'] [] '2' World.boot 2
      (by decide) (by decide) (by decide) (by decide),
   (blink_pattern_invalid_frame "102".toList ['1', '0'] [] '2' World.boot 3
      (by decide) (by decide) (by decide) (by decide)).2.2.1,
   (blink_pattern_invalid_frame "2".toList [] [] '2' (digitalWrite 13 Level.HIGH World.boot) 1
      (by decide) (by decide) (by decide) (by decide)).2.2.1⟩

/-- Claim C4: `blink_pattern` returns exactly when the pattern (the string held by
the array) has a character other than `'0'` and `'1'`. If every character is
accepted, the empty pattern included, it has not returned whatever the fuel. If
some character is rejected, it returns in the first pass: with `k` the index of the
first rejected character, `k < strlen pattern`, and from fuel `k + 1` on the
function has returned with the loop variable at `k`, having read the indices
`0, ..., k` once each. -/
theorem blink_pattern_returns_iff (pattern : List Char) (w : World) :
    ((∃ fuel, (blink_pattern pattern fuel w).returned = true)
        ↔ ∃ c ∈ cstr pattern, ¬ (c = '0' ∨ c = '1'))
    ∧ ((∀ c ∈ cstr pattern, c = '0' ∨ c = '1') →
        ∀ fuel, (blink_pattern pattern fuel w).returned = false)
    ∧ ((∃ c ∈ cstr pattern, ¬ (c = '0' ∨ c = '1')) →
        ∃ k, k < strlen pattern ∧ ∀ fuel, k + 1 ≤ fuel →
          (blink_pattern pattern fuel w).returned = true
          ∧ (blink_pattern pattern fuel w).index = k
          ∧ (blink_pattern pattern fuel w).reads = List.range' 0 (k + 1)) := by
  have hgood : (∀ c ∈ cstr pattern, c = '0' ∨ c = '1') →
      ∀ fuel, (blink_pattern pattern fuel w).returned = false := by
    intro hb fuel
    rw [blink_pattern_bits hb]
  have hbad : (∃ c ∈ cstr pattern, ¬ (c = '0' ∨ c = '1')) →
      ∃ k, k < strlen pattern ∧ ∀ fuel, k + 1 ≤ fuel →
        (blink_pattern pattern fuel w).returned = true
        ∧ (blink_pattern pattern fuel w).index = k
        ∧ (blink_pattern pattern fuel w).reads = List.range' 0 (k + 1) := by
    intro h
    obtain ⟨v, c, rest, e, hv, hc⟩ := split_at_first_reject (cstr pattern) h
    refine ⟨v.length, by unfold strlen; rw [e]; simp, ?_⟩
    intro fuel hf
    rw [blink_pattern_reject e hv hc fuel hf]
    exact ⟨rfl, rfl, rfl⟩
  refine ⟨⟨?_, ?_⟩, hgood, hbad⟩
  · rintro ⟨fuel, hret⟩
    by_contra hno
    have hb : ∀ c ∈ cstr pattern, c = '0' ∨ c = '1' := by
      intro c hc
      by_contra hn
      exact hno ⟨c, hc, hn⟩
    rw [hgood hb fuel] at hret
    exact Bool.false_ne_true hret
  · intro h
    obtain ⟨k, _, hk⟩ := hbad h
    exact ⟨k + 1, (hk (k + 1) (Nat.le_refl _)).1⟩

/-- Claim C7: on every target, for every error value, message and fuel, the first
call `error_blink` logs is `Serial.println(message)`: it comes before every pin write, wait and other
diagnostic. -/
theorem error_blink_message_first (T : Target) (error : Int) (message : String)
    (fuel : Nat) (w : World) :
    ∃ rest, emitted w (error_blink T error message fuel w) = Event.println message :: rest := by
  obtain ⟨pat, hdr, w', he, hw, hh, _⟩ := error_blink_dispatch T error message fuel w
  obtain ⟨cs, tail, ht, _⟩ := blink_pattern_trace_shape pat fuel w'
  rw [he]
  rcases hh with hh | hh
  · refine ⟨blinkEvents cs ++ tail, ?_⟩
    apply emitted_of_trace
    rw [ht, hw, hh]
    simp
  · refine ⟨Event.print "Error not tagged! Code: "
      :: Event.printlnNum (to_int T (to_error_type T error))
      :: (blinkEvents cs ++ tail), ?_⟩
    apply emitted_of_trace
    rw [ht, hw, hh]
    simp

/-- Claim C6: on every target, for every error value, message and fuel,
`error_blink` has not returned, and what it logged is its own diagnostics (the
message, and for a code outside the enumeration the text and the code as
`println(int)` receives it) followed by blink steps only: the
diagnostic of `blink_pattern` is never printed. Each of the five pattern literals
consists of `'0'` and `'1'` only. -/
theorem error_blink_never_returns (T : Target) (error : Int) (message : String)
    (fuel : Nat) (w : World) :
    (error_blink T error message fuel w).returned = false
    ∧ (∃ cs : List Char,
        emitted w (error_blink T error message fuel w)
          = Event.println message :: blinkEvents cs
        ∨ emitted w (error_blink T error message fuel w)
          = Event.println message :: Event.print "Error not tagged! Code: "
              :: Event.printlnNum (to_int T (to_error_type T error)) :: blinkEvents cs)
    ∧ (∀ pat ∈ ["1100", "1010", "0001", "00010101", "10100000"],
        ∀ c ∈ cstr pat.toList, c = '0' ∨ c = '1') := by
  obtain ⟨pat, hdr, w', he, hw, hh, hb⟩ := error_blink_dispatch T error message fuel w
  refine ⟨?_, ?_, by decide⟩
  · rw [he, blink_pattern_bits hb]
  · rw [he, blink_pattern_bits hb]
    refine ⟨(List.replicate (fuel / (strlen pat + 1)) (cstr pat)).flatten
      ++ (cstr pat).take (fuel % (strlen pat + 1)), ?_⟩
    rcases hh with hh | hh
    · left
      apply emitted_of_trace
      simp only [playChars_trace, hw, hh]
      simp
    · right
      apply emitted_of_trace
      simp only [playChars_trace, hw, hh]
      simp

/-- Claim C9: in every trace of `blink_pattern` and of `error_blink`, for every
input and on every target, a pin write is to pin 13 and the call right after it is
`delay(BLINK_PERIOD)`, and a wait lasts `BLINK_PERIOD = 500` and the call right
before it is a write to pin 13. -/
theorem traces_paced (T : Target) (pattern : List Char) (error : Int) (message : String)
    (fuel : Nat) (w : World) :
    BLINK_PERIOD = 500
    ∧ Paced (emitted w (blink_pattern pattern fuel w))
    ∧ Paced (emitted w (error_blink T error message fuel w)) := by
  refine ⟨rfl, ?_, ?_⟩
  · obtain ⟨cs, tail, ht, htail⟩ := blink_pattern_trace_shape pattern fuel w
    rw [emitted_of_trace ht]
    apply Paced_of_paced
    rw [paced_blinkEvents_append]
    rcases htail with h | h <;> subst h <;> rfl
  · obtain ⟨pat, hdr, w', he, hw, hh, _⟩ := error_blink_dispatch T error message fuel w
    obtain ⟨cs, tail, ht, htail⟩ := blink_pattern_trace_shape pat fuel w'
    have e : (error_blink T error message fuel w).world.trace
        = w.trace ++ (hdr ++ (blinkEvents cs ++ tail)) := by
      rw [he, ht, hw]; simp
    rw [emitted_of_trace e]
    apply Paced_of_paced
    have hp : paced (blinkEvents cs ++ tail) = true := by
      rw [paced_blinkEvents_append]
      rcases htail with h | h <;> subst h <;> rfl
    rcases hh with hh | hh <;> subst hh <;> simpa [paced] using hp

/-- Claim C3: for a pattern (the string held by the array) that is non-empty and
made of `'0'` and `'1'` only, `blink_pattern` walks it cyclically. For every `i`,
once the fuel is at least `2 * (i + 1)` the `i`-th pin event exists and is a
write to pin 13 of HIGH when the character at `i mod len` is `'1'` and of LOW
when it is `'0'`. For every `n`, once the fuel is at least `n * (len + 1)` the
first `n * len` pin events are the levels of the pattern repeated `n` times. -/
theorem blink_pattern_cycles (pattern : List Char) (w : World)
    (hne : cstr pattern ≠ []) (hb : ∀ c ∈ cstr pattern, c = '0' ∨ c = '1') :
    (∀ i fuel, 2 * (i + 1) ≤ fuel →
      ∃ c, (cstr pattern)[i % strlen pattern]? = some c
        ∧ ((c = '1' ∧ (pinWrites (emitted w (blink_pattern pattern fuel w)))[i]?
                        = some (13, Level.HIGH))
          ∨ (c = '0' ∧ (pinWrites (emitted w (blink_pattern pattern fuel w)))[i]?
                        = some (13, Level.LOW))))
    ∧ (∀ n fuel, n * (strlen pattern + 1) ≤ fuel →
        (pinWrites (emitted w (blink_pattern pattern fuel w))).take (n * strlen pattern)
          = (List.replicate n ((cstr pattern).map
              (fun c => (13, if c = '1' then Level.HIGH else Level.LOW)))).flatten) := by
  have hlen : 0 < strlen pattern := List.length_pos.mpr hne
  constructor
  · intro i fuel hf
    have hmod : i % strlen pattern < (cstr pattern).length := Nat.mod_lt _ hlen
    refine ⟨(cstr pattern)[i % strlen pattern], List.getElem?_eq_getElem hmod, ?_⟩
    have hpw : (pinWrites (emitted w (blink_pattern pattern fuel w)))[i]?
        = some (13, levelOf ((cstr pattern)[i % strlen pattern])) := by
      rw [blink_pattern_bits hb, emitted_of_trace (playChars_trace _ w), pinWrites_blinkEvents,
        List.getElem?_map]
      have hr : fuel % (strlen pattern + 1) ≤ (cstr pattern).length :=
        Nat.lt_succ_iff.mp (Nat.mod_lt _ (Nat.succ_pos _))
      have := cyc_getElem? (cstr pattern) (fuel / (strlen pattern + 1))
        (fuel % (strlen pattern + 1)) i hr (consumed_ge _ fuel i hlen hf)
      have hmod' : i % (cstr pattern).length < (cstr pattern).length := hmod
      rw [this, List.getElem?_eq_getElem hmod']
      rfl
    rcases hb _ (List.getElem_mem hmod) with h | h
    · right
      refine ⟨h, ?_⟩
      rw [hpw, h]; rfl
    · left
      refine ⟨h, ?_⟩
      rw [hpw, h]; rfl
  · intro n fuel hf
    obtain ⟨_, more, hm⟩ := blinksForever_of_bits hb w w [] (by simp) n fuel hf
    simp only at hm
    rw [hm]
    simp only [List.nil_append, pinWrites_append, pinWrites_blinkEvents]
    have hl : ((List.replicate n (cstr pattern)).flatten.map
        (fun c => ((13 : Nat), levelOf c))).length = n * strlen pattern := by
      simp [List.length_flatten, strlen]
    rw [← hl, List.take_left']
    · simp [List.map_flatten, levelOf]
    · rfl

theorem blink_pattern_cycles_witness :
    cstr "1100".toList ≠ []
    ∧ (∀ c ∈ cstr "1100".toList, c = '0' ∨ c = '1')
    ∧ (∃ c, (cstr "1100".toList)[5 % strlen "1100".toList]? = some c
        ∧ ((c = '1' ∧ (pinWrites (emitted World.boot
                (blink_pattern "1100".toList 12 World.boot)))[5]? = some (13, Level.HIGH))
          ∨ (c = '0' ∧ (pinWrites (emitted World.boot
                (blink_pattern "1100".toList 12 World.boot)))[5]? = some (13, Level.LOW))))
    ∧ (pinWrites (emitted World.boot (blink_pattern "1100".toList 10 World.boot))).take
          (2 * strlen "1100".toList)
        = (List.replicate 2 ((cstr "1100".toList).map
              (fun c => (13, if c = '1' then Level.HIGH else Level.LOW)))).flatten :=
  ⟨by decide, by decide,
   (blink_pattern_cycles "1100".toList World.boot (by decide) (by decide)).1 5 12 (by decide),
   (blink_pattern_cycles "1100".toList World.boot (by decide) (by decide)).2 2 10 (by decide)⟩

/-- Claim C1: on every target, for each of the four named error kinds and every
message, `error_blink` blinks the pattern of the table forever: it never returns,
and for every `n`, once the fuel covers `n` passes, what it logged is
`Serial.println(message)`, then the blink steps of the pattern repeated `n` times
(`'1'` writes HIGH and `'0'` writes LOW to pin 13, each followed by
`delay(500)`), then blink steps only, so the message is the only diagnostic. -/
theorem error_blink_named (T : Target) (message : String) (w : World) :
    BlinksForever (fun fuel => error_blink T MEM_LOAD_FAILED message fuel w) w
      [Event.println message] "1100".toList
    ∧ BlinksForever (fun fuel => error_blink T CONNECTION_REFUSED message fuel w) w
      [Event.println message] "1010".toList
    ∧ BlinksForever (fun fuel => error_blink T DEADBEEF message fuel w) w
      [Event.println message] "0001".toList
    ∧ BlinksForever (fun fuel => error_blink T ERROR_UNKNOWN message fuel w) w
      [Event.println message] "00010101".toList :=
  ⟨error_blink_named_runs T _ MEM_LOAD_FAILED message w
      (fun fuel => error_blink_of_enumerator T _ (by decide) (by decide) message fuel w)
      (by decide) (by decide),
   error_blink_named_runs T _ CONNECTION_REFUSED message w
      (fun fuel => error_blink_of_enumerator T _ (by decide) (by decide) message fuel w)
      (by decide) (by decide),
   error_blink_named_runs T _ DEADBEEF message w
      (fun fuel => error_blink_of_enumerator T _ (by decide) (by decide) message fuel w)
      (by decide) (by decide),
   error_blink_named_runs T _ ERROR_UNKNOWN message w
      (fun fuel => error_blink_of_enumerator T _ (by decide) (by decide) message fuel w)
      (by decide) (by decide)⟩

/-- Claim C2, as amended: on every target, for every error value whose code (the
value the parameter holds) is outside the four enumerators (not in 0..3) and every
message, `error_blink` logs `Serial.println(message)`, then
`Serial.print("Error not tagged! Code: ")`, then `Serial.println` of the code
converted to `int`, and only then blinks `10100000` forever: it never returns, and
for every `n`, once the fuel covers `n` passes, those three diagnostics are
followed by the blink steps of the pattern repeated `n` times, then blink steps
only. The number printed is the code itself when the code is below
`2 ^ (intBits - 1)`, and the code minus `2 ^ intBits` otherwise. -/
theorem error_blink_untagged (T : Target) (error : Int) (message : String) (w : World)
    (hout : ¬ (0 ≤ to_error_type T error ∧ to_error_type T error ≤ 3)) :
    BlinksForever (fun fuel => error_blink T error message fuel w) w
      [Event.println message, Event.print "Error not tagged! Code: ",
       Event.printlnNum (to_int T (to_error_type T error))]
      "10100000".toList
    ∧ (to_error_type T error < 2 ^ (T.intBits - 1) →
        to_int T (to_error_type T error) = to_error_type T error)
    ∧ (2 ^ (T.intBits - 1) ≤ to_error_type T error →
        to_int T (to_error_type T error) = to_error_type T error - 2 ^ T.intBits) := by
  have h0 : to_error_type T error ≠ MEM_LOAD_FAILED := fun h => hout (by rw [h]; decide)
  have h1 : to_error_type T error ≠ CONNECTION_REFUSED := fun h => hout (by rw [h]; decide)
  have h2 : to_error_type T error ≠ DEADBEEF := fun h => hout (by rw [h]; decide)
  have h3 : to_error_type T error ≠ ERROR_UNKNOWN := fun h => hout (by rw [h]; decide)
  have hrun : ∀ fuel, error_blink T error message fuel w
      = blink_pattern "10100000".toList fuel
          (Serial_printlnNum (to_int T (to_error_type T error))
            (Serial_print "Error not tagged! Code: " (Serial_println message w))) := by
    intro fuel
    unfold error_blink
    dsimp only
    rw [if_neg h0, if_neg h1, if_neg h2, if_neg h3]
  have hb : ∀ c ∈ cstr "10100000".toList, isBit c := by decide
  have hc : cstr "10100000".toList = "10100000".toList := by decide
  have hrange := to_error_type_range T error
  refine ⟨?_, to_int_low T _ hrange.1, to_int_high T _ hrange.2⟩
  have := blinksForever_of_bits hb w
    (Serial_printlnNum (to_int T (to_error_type T error))
      (Serial_print "Error not tagged! Code: " (Serial_println message w)))
    [Event.println message, Event.print "Error not tagged! Code: ",
     Event.printlnNum (to_int T (to_error_type T error))]
    (by simp [Serial_println, Serial_print, Serial_printlnNum])
  rw [hc] at this
  simpa [hrun] using this

theorem error_blink_untagged_witness :
    ¬ (0 ≤ to_error_type Target.avr 40000 ∧ to_error_type Target.avr 40000 ≤ 3)
    ∧ BlinksForever (fun fuel => error_blink Target.avr 40000 "boom" fuel World.boot)
        World.boot
        [Event.println "boom", Event.print "Error not tagged! Code: ",
         Event.printlnNum (to_int Target.avr (to_error_type Target.avr 40000))]
        "10100000".toList
    ∧ to_int Target.avr (to_error_type Target.avr 40000) = -25536
    ∧ to_int Target.shortEnum (to_error_type Target.shortEnum 200)
        = to_error_type Target.shortEnum 200
    ∧ to_error_type Target.shortEnum 200 = 200 :=
  ⟨by decide,
   (error_blink_untagged Target.avr 40000 "boom" World.boot (by decide)).1,
   by decide,
   (error_blink_untagged Target.shortEnum 200 "boom" World.boot (by decide)).2.1 (by decide),
   by decide⟩

/-- Claim C2 as stated fails: on a target with a 32-bit `int` and a 32-bit
enumeration the code 4294967295 is outside 0..3 and is held unchanged by the
parameter, yet the number `error_blink` prints after the text is -1, not the
numeric value of the code. -/
theorem error_blink_untagged_counterexample :
    ¬ (0 ≤ (4294967295 : Int) ∧ (4294967295 : Int) ≤ 3)
    ∧ to_error_type Target.int32 4294967295 = 4294967295
    ∧ emitted World.boot (error_blink Target.int32 4294967295 "boom" 0 World.boot)
        = [Event.println "boom", Event.print "Error not tagged! Code: ",
           Event.printlnNum (-1)]
    ∧ ¬ BlinksForever
          (fun fuel => error_blink Target.int32 4294967295 "boom" fuel World.boot)
          World.boot
          [Event.println "boom", Event.print "Error not tagged! Code: ",
           Event.printlnNum 4294967295]
          "10100000".toList := by
  have hem : emitted World.boot (error_blink Target.int32 4294967295 "boom" 0 World.boot)
      = [Event.println "boom", Event.print "Error not tagged! Code: ",
         Event.printlnNum (-1)] := by decide
  refine ⟨by decide, by decide, hem, ?_⟩
  intro hforever
  obtain ⟨_, more, hmore⟩ := hforever 0 0 (by decide)
  simp only [hem, List.replicate_zero, List.flatten_nil, blinkEvents, List.flatMap_nil,
    List.append_nil, List.cons_append, List.nil_append, List.cons.injEq,
    Event.printlnNum.injEq, true_and] at hmore
  exact absurd hmore.1 (by decide)

end ErrorHandling
